import Mathlib

/-!
Shallow embedding of the streaming message-assembly engine of the
OpenLegion web client (`src/web/src/pages/Chat.tsx`, second Chat
component), together with the connection-manager reconnect policy and the
history replayer.  The definitions below mirror the TypeScript source;
theorems about them settle the specification's claims.
-/

namespace OpenLegion

/-! ## JSON values

Models the values produced by the host `JSON.parse` builtin.  Numeric
payloads are kept as their source lexeme: no handler in the embedded code
ever computes with a number, it only stores and compares parsed values.
-/

inductive JsonValue where
  | null
  | bool (b : Bool)
  | num (lexeme : String)
  | str (s : String)
  | arr (elems : List JsonValue)
  | obj (fields : List (String × JsonValue))

/-- `typeof v === 'string'` for a JS value decoded from JSON. -/
def JsonValue.isString : JsonValue → Bool
  | .str _ => true
  | _ => false

/-- `typeof v === 'object' && v !== null` for a JS value decoded from JSON
(arrays and objects; JSON `null` is excluded by the `!== null` check). -/
def JsonValue.isObjectNonNull : JsonValue → Bool
  | .arr _ => true
  | .obj _ => true
  | _ => false

/-! ### A JSON parser, modelling the host `JSON.parse`

`JSON.parse` throws on malformed input; the model returns `none` instead,
so the `try { JSON.parse(...) } catch { ... }` blocks of the source become
total `match` expressions.  Fuel-based recursive descent; the fuel
`s.length + 1` always suffices because every recursive step consumes at
least one character.
-/

def jsonWsChar (c : Char) : Bool :=
  c == ' ' || c == '\n' || c == '\r' || c == '\t'

def skipWs (cs : List Char) : List Char :=
  cs.dropWhile jsonWsChar

def hexDigitVal (c : Char) : Option Nat :=
  let n := c.toNat
  if 48 ≤ n ∧ n ≤ 57 then some (n - 48)
  else if 97 ≤ n ∧ n ≤ 102 then some (n - 87)
  else if 65 ≤ n ∧ n ≤ 70 then some (n - 55)
  else none

/-- Body of a JSON string literal after the opening quote: returns the
decoded content and the remainder after the closing quote. -/
def parseStringBody : Nat → List Char → Option (String × List Char)
  | 0, _ => none
  | _, [] => none
  | Nat.succ fuel, c :: rest =>
    if c = '"' then some ("", rest)
    else if c = '\\' then
      match rest with
      | [] => none
      | e :: rest2 =>
        let esc : Option (String × List Char) :=
          if e = '"' then some ("\"", rest2)
          else if e = '\\' then some ("\\", rest2)
          else if e = '/' then some ("/", rest2)
          else if e = 'b' then some ("\x08", rest2)
          else if e = 'f' then some ("\x0c", rest2)
          else if e = 'n' then some ("\n", rest2)
          else if e = 'r' then some ("\r", rest2)
          else if e = 't' then some ("\t", rest2)
          else if e = 'u' then
            match rest2 with
            | h1 :: h2 :: h3 :: h4 :: rest3 =>
              match [h1, h2, h3, h4].mapM hexDigitVal with
              | some vs =>
                some (String.singleton (Char.ofNat (vs.foldl (fun acc v => acc * 16 + v) 0)),
                  rest3)
              | none => none
            | _ => none
          else none
        match esc with
        | some (s, rem) => (parseStringBody fuel rem).map (fun p => (s ++ p.1, p.2))
        | none => none
    else (parseStringBody fuel rest).map (fun p => (String.singleton c ++ p.1, p.2))

/-- JSON number lexeme: `-? int frac? exp?`; returns the lexeme and the
remainder.  `JSON.parse` rejects leading zeros, mirrored here. -/
def lexNumber (cs : List Char) : Option (String × List Char) :=
  let signed := fun (body : List Char) (sign : String) =>
    match body with
    | [] => none
    | d :: ds =>
      if d = '0' then some (sign ++ "0", ds)
      else if d.isDigit then
        some (sign ++ String.mk (d :: ds.takeWhile Char.isDigit), ds.dropWhile Char.isDigit)
      else none
  let intPart :=
    match cs with
    | '-' :: body => signed body "-"
    | body => signed body ""
  match intPart with
  | none => none
  | some (lex1, rest1) =>
    let fracPart :=
      match rest1 with
      | '.' :: d :: ds =>
        if d.isDigit then
          some (lex1 ++ "." ++ String.mk (d :: ds.takeWhile Char.isDigit), ds.dropWhile Char.isDigit)
        else none
      | _ => some (lex1, rest1)
    match fracPart with
    | none => none
    | some (lex2, rest2) =>
      match rest2 with
      | e :: rest3 =>
        if e = 'e' ∨ e = 'E' then
          let expBody := fun (body : List Char) (sign : String) =>
            match body with
            | [] => none
            | d :: ds =>
              if d.isDigit then
                some (lex2 ++ "e" ++ sign ++ String.mk (d :: ds.takeWhile Char.isDigit),
                  ds.dropWhile Char.isDigit)
              else none
          match rest3 with
          | '+' :: body => expBody body "+"
          | '-' :: body => expBody body "-"
          | body => expBody body ""
        else some (lex2, rest2)
      | [] => some (lex2, rest2)

mutual

def parseJsonValue : Nat → List Char → Option (JsonValue × List Char)
  | 0, _ => none
  | Nat.succ fuel, cs =>
    match skipWs cs with
    | [] => none
    | c :: rest =>
      if c = '"' then
        (parseStringBody (Nat.succ fuel) rest).map (fun p => (JsonValue.str p.1, p.2))
      else if c = '\x7b' then
        match skipWs rest with
        | '\x7d' :: rest2 => some (JsonValue.obj [], rest2)
        | _ => (parseMembers fuel rest).map (fun p => (JsonValue.obj p.1, p.2))
      else if c = '\x5b' then
        match skipWs rest with
        | '\x5d' :: rest2 => some (JsonValue.arr [], rest2)
        | _ => (parseElements fuel rest).map (fun p => (JsonValue.arr p.1, p.2))
      else if c = 't' then
        match rest with
        | 'r' :: 'u' :: 'e' :: rest2 => some (JsonValue.bool true, rest2)
        | _ => none
      else if c = 'f' then
        match rest with
        | 'a' :: 'l' :: 's' :: 'e' :: rest2 => some (JsonValue.bool false, rest2)
        | _ => none
      else if c = 'n' then
        match rest with
        | 'u' :: 'l' :: 'l' :: rest2 => some (JsonValue.null, rest2)
        | _ => none
      else
        (lexNumber (c :: rest)).map (fun p => (JsonValue.num p.1, p.2))

def parseMembers : Nat → List Char → Option (List (String × JsonValue) × List Char)
  | 0, _ => none
  | Nat.succ fuel, cs =>
    match skipWs cs with
    | '"' :: rest =>
      match parseStringBody (Nat.succ fuel) rest with
      | some (key, rest2) =>
        match skipWs rest2 with
        | ':' :: rest3 =>
          match parseJsonValue fuel rest3 with
          | some (v, rest4) =>
            match skipWs rest4 with
            | ',' :: rest5 => (parseMembers fuel rest5).map (fun p => ((key, v) :: p.1, p.2))
            | '\x7d' :: rest5 => some ([(key, v)], rest5)
            | _ => none
          | none => none
        | _ => none
      | none => none
    | _ => none

def parseElements : Nat → List Char → Option (List JsonValue × List Char)
  | 0, _ => none
  | Nat.succ fuel, cs =>
    match parseJsonValue fuel cs with
    | some (v, rest) =>
      match skipWs rest with
      | ',' :: rest2 => (parseElements fuel rest2).map (fun p => (v :: p.1, p.2))
      | '\x5d' :: rest2 => some ([v], rest2)
      | _ => none
    | none => none

end

/-- Model of the host `JSON.parse`: `some v` on well-formed JSON (whole
input consumed up to trailing whitespace), `none` where `JSON.parse`
throws. -/
def jsonParse (s : String) : Option JsonValue :=
  match parseJsonValue (s.length + 1) s.data with
  | some (v, rest) => if (skipWs rest).isEmpty then some v else none
  | none => none

/-! ## Data model (`Chat.tsx` lines 1120-1136, 2340)

`MessagePart` is a TS union of records; embedded as one record whose
optional TS fields become `Option`s / defaulted fields.  The `type` field
is the TS string discriminant. -/

structure MessagePart where
  type : String
  content : String := ""
  tool_name : String := ""
  tool_call_id : Option String := none
  arguments : Option JsonValue := none
  isActive : Option Bool := none

inductive Role where
  | user
  | assistant
  | error
  | approval
  | tool_result
deriving DecidableEq

structure Message where
  id : String
  role : Role
  content : String
  parts : Option (List MessagePart) := none
  tool_call_id : Option String := none
  output : Option String := none

/-- Side-channel status (`context_usage`/`token_usage` are numbers in TS;
they are stored and displayed, never computed with, so an opaque `Int`
carrier is faithful). -/
structure StatusInfo where
  context_usage : Option Int := none
  token_usage : Option Int := none

/-- Entry of the `tool_calls` array of a terminal `complete`/`assistant`
frame (`data.tool_calls as Array<{tool_name; arguments}>`). -/
structure BackendToolCall where
  tool_name : String
  arguments : JsonValue

/-- Decoded inbound socket events (`handleMessage`'s `data`, after
`JSON.parse(event.data)`).  The `complete` constructor covers both the
`complete` and `assistant` frame kinds, which share one handler. -/
inductive WsEvent where
  | status (context_usage : Option Int) (token_usage : Option Int)
  | chunk (content : String)
  | think (content : String)
  | tool_call (tool_name : Option String) (tool_call_id : Option String)
      (arguments : Option JsonValue) (arguments_raw : Option String)
  | tool_call_chunk (content : Option String)
  | tool_call_complete
  | tool_result (tool_call_id : Option String) (output : Option String)
  | complete (content : Option String) (tool_calls : Option (List BackendToolCall))
  | error (message : String)
  | approval_result (approved : Bool)

/-- Client state touched by `handleMessage`: the transcript (`messages`),
the open-turn pointer (`streamingMsgIdRef.current`), the status side
channel and the loading flag.  `now` models `Date.now()` as a
strictly-increasing tick used to mint fresh ids. -/
structure ChatState where
  messages : List Message
  streamingMsgId : Option String
  statusInfo : StatusInfo
  isLoading : Bool
  now : Nat

def initialState : ChatState :=
  { messages := [], streamingMsgId := none, statusInfo := {}, isLoading := false, now := 0 }

def streamingIdOf (n : Nat) : String := "streaming-" ++ Nat.repr n

def msgIdOf (n : Nat) : String := "msg-" ++ Nat.repr n

def errorIdOf (n : Nat) : String := "error-" ++ Nat.repr n

def approvalIdOf (n : Nat) : String := "approval-" ++ Nat.repr n

/-! ## `updateStreamingMessage` (`Chat.tsx` lines 2672-2700) -/

/-- `prev.findIndex(m => m.id === id)` followed by an in-place update of
that element: `some` of the updated list when found, `none` otherwise. -/
def updateFirstById (msgs : List Message) (sid : String) (f : Message → Message) :
    Option (List Message) :=
  match msgs with
  | [] => none
  | m :: rest =>
    if m.id = sid then some (f m :: rest)
    else (updateFirstById rest sid f).map (fun tl => m :: tl)

/-- The `// Create new streaming message` arm of `updateStreamingMessage`. -/
def createStreamingMessage (st : ChatState) (createNewPart : Option MessagePart) : ChatState :=
  let newId := streamingIdOf st.now
  { st with
    messages := st.messages ++
      [{ id := newId, role := .assistant, content := "",
         parts := some (match createNewPart with | some p => [p] | none => []) }]
    streamingMsgId := some newId
    now := st.now + 1 }

def updateStreamingMessage (st : ChatState)
    (updateFn : List MessagePart → List MessagePart)
    (createNewPart : Option MessagePart) : ChatState :=
  match st.streamingMsgId with
  | some sid =>
    match updateFirstById st.messages sid
        (fun msg => { msg with parts := some (updateFn (msg.parts.getD [])) }) with
    | some msgs => { st with messages := msgs }
    | none => createStreamingMessage st createNewPart
  | none => createStreamingMessage st createNewPart

/-! ## Per-event part transformers (`handleMessage`, lines 2702-2907) -/

def textPart (c : String) : MessagePart := { type := "text", content := c }

def thinkingPart (c : String) (active : Bool) : MessagePart :=
  { type := "thinking", content := c, isActive := some active }

def toolCallPart (name : String) (tcid : Option String) (args : Option JsonValue)
    (active : Bool) : MessagePart :=
  { type := "tool_call", tool_name := name, tool_call_id := tcid,
    arguments := args, isActive := some active }

/-- `case 'chunk'` update function (lines 2715-2724). -/
def chunkUpdate (c : String) (parts : List MessagePart) : List MessagePart :=
  match parts.getLast? with
  | some lastPart =>
    if lastPart.type = "text" then
      parts.dropLast ++ [{ lastPart with content := lastPart.content ++ c }]
    else parts ++ [textPart c]
  | none => parts ++ [textPart c]

/-- `parts.map(p => p.type === 'thinking' ? { ...p, isActive: false } : p)`. -/
def deactivateThinking (parts : List MessagePart) : List MessagePart :=
  parts.map (fun p => if p.type = "thinking" then { p with isActive := some false } else p)

/-- `case 'think'` update function (lines 2731-2743). -/
def thinkUpdate (c : String) (parts : List MessagePart) : List MessagePart :=
  match parts.getLast? with
  | some lastPart =>
    if lastPart.type = "thinking" ∧ lastPart.isActive = some true then
      parts.dropLast ++ [{ lastPart with content := lastPart.content ++ c }]
    else deactivateThinking parts ++ [thinkingPart c true]
  | none => deactivateThinking parts ++ [thinkingPart c true]

/-- `data.arguments_raw ?? data.arguments ?? ''` (line 2750); `??` skips
both `undefined` (`none`) and JSON `null`. -/
def toolCallInitialArgs (arguments : Option JsonValue) (arguments_raw : Option String) :
    JsonValue :=
  match arguments_raw with
  | some s => .str s
  | none =>
    match arguments with
    | some .null => .str ""
    | some v => v
    | none => .str ""

/-- The first branch of `case 'tool_call'` (lines 2753-2755): append the
raw fragment to a trailing active `tool_call` part whose arguments are
still a string; `none` when that condition fails. -/
def toolCallAppendToActive (initialArgs : JsonValue) (parts : List MessagePart) :
    Option (List MessagePart) :=
  match parts.getLast? with
  | some lastPart =>
    match lastPart.arguments, initialArgs with
    | some (.str s1), .str s2 =>
      if lastPart.type = "tool_call" ∧ lastPart.isActive = some true then
        some (parts.dropLast ++ [{ lastPart with arguments := some (.str (s1 ++ s2)) }])
      else none
    | _, _ => none
  | none => none

/-- The object-arguments branch of `case 'tool_call'` (lines 2757-2761):
give every active `tool_call` part the structured arguments and
deactivate it. -/
def toolCallDeactivateWith (v : JsonValue) (p : MessagePart) : MessagePart :=
  if p.type = "tool_call" ∧ p.isActive = some true then
    { p with arguments := some v, isActive := some false }
  else p

/-- `case 'tool_call'` update function (lines 2751-2764). -/
def toolCallUpdate (tool_name : Option String) (tcid : Option String)
    (arguments : Option JsonValue) (arguments_raw : Option String)
    (parts : List MessagePart) : List MessagePart :=
  let initialArgs := toolCallInitialArgs arguments arguments_raw
  match toolCallAppendToActive initialArgs parts with
  | some res => res
  | none =>
    match arguments with
    | some v =>
      if v.isObjectNonNull then parts.map (toolCallDeactivateWith v)
      else parts ++ [toolCallPart (tool_name.getD "unknown") tcid (some initialArgs) true]
    | none => parts ++ [toolCallPart (tool_name.getD "unknown") tcid (some initialArgs) true]

/-- `case 'tool_call_chunk'` update function (lines 2772-2779). -/
def toolCallChunkUpdate (content : Option String) (parts : List MessagePart) :
    List MessagePart :=
  match parts.getLast? with
  | some lastPart =>
    if lastPart.type = "tool_call" ∧ lastPart.isActive = some true then
      let current := match lastPart.arguments with | some (.str s) => s | _ => ""
      parts.dropLast ++ [{ lastPart with arguments := some (.str (current ++ content.getD "")) }]
    else parts
  | none => parts

/-- `case 'tool_call_complete'` update function (lines 2784-2797),
parameterised by the `JSON.parse` model. -/
def toolCallCompleteUpdate (parse : String → Option JsonValue)
    (parts : List MessagePart) : List MessagePart :=
  parts.map (fun p =>
    match p.arguments with
    | some (.str s) =>
      if p.type = "tool_call" ∧ p.isActive = some true then
        match parse s with
        | some parsed => { p with arguments := some parsed, isActive := some false }
        | none => { p with isActive := some false }
      else { p with isActive := some false }
    | _ => { p with isActive := some false })

/-! ## `case 'tool_result'` (lines 2800-2835) -/

/-- `msg.role === 'assistant' && msg.parts && msg.parts.some(p =>
p.type === 'tool_call' && p.tool_call_id === toolCallId)`.  In JS an empty
parts array is still truthy, and `undefined === undefined` holds, so
`none`-`none` id matches are faithful. -/
def hasMatchingToolCall (m : Message) (tcid : Option String) : Bool :=
  m.role = .assistant &&
    (match m.parts with
     | some parts => parts.any (fun p => p.type = "tool_call" && p.tool_call_id = tcid)
     | none => false)

/-- The `for` loop of lines 2813-2825: first match wins, giving `i + 1`;
the fallback is `prev.length`. -/
def toolResultInsertIndexGo (tcid : Option String) :
    List Message → Nat → Nat → Nat
  | [], _, fallback => fallback
  | m :: rest, i, fallback =>
    if hasMatchingToolCall m tcid then i + 1
    else toolResultInsertIndexGo tcid rest (i + 1) fallback

def toolResultInsertIndex (msgs : List Message) (tcid : Option String) : Nat :=
  toolResultInsertIndexGo tcid msgs 0 msgs.length

def mkToolResultMsg (n : Nat) (tcid : Option String) (output : Option String) : Message :=
  { id := msgIdOf n, role := .tool_result, content := "",
    tool_call_id := tcid, output := some (output.getD "") }

def handleToolResult (st : ChatState) (tcid : Option String) (output : Option String) :
    ChatState :=
  let newMsg := mkToolResultMsg st.now tcid output
  let insertIndex := toolResultInsertIndex st.messages tcid
  { st with
    messages := st.messages.take insertIndex ++ [newMsg] ++ st.messages.drop insertIndex
    streamingMsgId := none
    now := st.now + 1 }

/-! ## `case 'complete'` / `case 'assistant'` (lines 2837-2893) -/

/-- The positional overwrite of tool_call parts by backend data
(lines 2852-2859); `k` is the running `toolCallIndex`. -/
def completeWithBackendGo (btcs : List BackendToolCall) :
    List MessagePart → Nat → List MessagePart
  | [], _ => []
  | p :: rest, k =>
    if p.type = "tool_call" ∧ k < btcs.length then
      match btcs.get? k with
      | some btc =>
        { p with tool_name := btc.tool_name, arguments := some btc.arguments,
                 isActive := some false } :: completeWithBackendGo btcs rest (k + 1)
      | none => { p with isActive := some false } :: completeWithBackendGo btcs rest k
    else { p with isActive := some false } :: completeWithBackendGo btcs rest k

/-- Best-effort parse of still-string arguments (lines 2862-2872); unlike
`tool_call_complete` this does not require the part to be active. -/
def completeBestEffort (parse : String → Option JsonValue)
    (parts : List MessagePart) : List MessagePart :=
  parts.map (fun p =>
    match p.arguments with
    | some (.str s) =>
      if p.type = "tool_call" then
        match parse s with
        | some parsed => { p with arguments := some parsed, isActive := some false }
        | none => { p with isActive := some false }
      else { p with isActive := some false }
    | _ => { p with isActive := some false })

def completeParts (parse : String → Option JsonValue)
    (tool_calls : Option (List BackendToolCall)) (parts : List MessagePart) :
    List MessagePart :=
  match tool_calls with
  | some btcs =>
    if btcs.length > 0 then completeWithBackendGo btcs parts 0
    else completeBestEffort parse parts
  | none => completeBestEffort parse parts

/-- Fallback when no streaming message exists (lines 2885-2889), followed
by the unconditional pointer/loading resets (lines 2891-2892). -/
def completeNoStreaming (st : ChatState) (content : Option String) : ChatState :=
  match content with
  | some c =>
    if c ≠ "" then
      { st with
        messages := st.messages ++
          [{ id := msgIdOf st.now, role := .assistant, content := c,
             parts := some [textPart c] }]
        streamingMsgId := none, isLoading := false, now := st.now + 1 }
    else { st with streamingMsgId := none, isLoading := false }
  | none => { st with streamingMsgId := none, isLoading := false }

def handleComplete (parse : String → Option JsonValue) (st : ChatState)
    (content : Option String) (tool_calls : Option (List BackendToolCall)) : ChatState :=
  match st.streamingMsgId with
  | some sid =>
    match updateFirstById st.messages sid (fun msg =>
        let partsWithToolCalls := completeParts parse tool_calls (msg.parts.getD [])
        let partsWithContent :=
          match content with
          | some c => if c ≠ "" then partsWithToolCalls ++ [textPart c] else partsWithToolCalls
          | none => partsWithToolCalls
        { msg with id := msgIdOf st.now, parts := some partsWithContent }) with
    | some msgs =>
      { st with messages := msgs, streamingMsgId := none, isLoading := false,
                now := st.now + 1 }
    | none => completeNoStreaming st content
  | none => completeNoStreaming st content

/-! ## The dispatcher (`handleMessage`, lines 2702-2907) -/

def handleMessage (parse : String → Option JsonValue) (st : ChatState) :
    WsEvent → ChatState
  | .status cu tu => { st with statusInfo := { context_usage := cu, token_usage := tu } }
  | .chunk c => updateStreamingMessage st (chunkUpdate c) (some (textPart c))
  | .think c => updateStreamingMessage st (thinkUpdate c) (some (thinkingPart c true))
  | .tool_call name tcid args raw =>
    updateStreamingMessage st (toolCallUpdate name tcid args raw)
      (some (toolCallPart (name.getD "unknown") tcid (some (toolCallInitialArgs args raw)) true))
  | .tool_call_chunk c => updateStreamingMessage st (toolCallChunkUpdate c) none
  | .tool_call_complete => updateStreamingMessage st (toolCallCompleteUpdate parse) none
  | .tool_result tcid out => handleToolResult st tcid out
  | .complete content tcs => handleComplete parse st content tcs
  | .error message =>
    { st with
      messages := st.messages ++ [{ id := errorIdOf st.now, role := .error, content := message }]
      streamingMsgId := none, isLoading := false, now := st.now + 1 }
  | .approval_result approved =>
    { st with
      messages := st.messages ++
        [{ id := approvalIdOf st.now, role := .approval,
           content := if approved then "Approved" else "Rejected" }]
      now := st.now + 1 }

def runEvents (parse : String → Option JsonValue) (st : ChatState)
    (evs : List WsEvent) : ChatState :=
  evs.foldl (handleMessage parse) st

/-! ## State accessors used by the theorems -/

/-- The message the streaming pointer refers to, if any. -/
def openMessage (st : ChatState) : Option Message :=
  match st.streamingMsgId with
  | some sid => st.messages.find? (fun m => m.id = sid)
  | none => none

/-- Parts of the currently open turn (`msg.parts || []`). -/
def openParts (st : ChatState) : Option (List MessagePart) :=
  (openMessage st).map (fun m => m.parts.getD [])

def partTypes (m : Message) : List String :=
  (m.parts.getD []).map (fun p => p.type)

/-- The part is of the given `type` and marked `isActive: true`. -/
def partActive (ty : String) (p : MessagePart) : Bool :=
  p.type = ty && p.isActive = some true

/-- Number of parts of the given `type` marked `isActive: true`. -/
def activeCount (ty : String) (parts : List MessagePart) : Nat :=
  (parts.filter (partActive ty)).length

/-! ## History replayer (`loadConversation`, lines 2528-2592) -/

structure ApiToolCall where
  tool_name : String
  tool_call_id : Option String := none
  arguments : Option JsonValue := none

structure ApiMessage where
  type : String
  content : Option String := none
  thinking : Option String := none
  tool_calls : Option (List ApiToolCall) := none
  tool_call_id : Option String := none
  output : Option String := none

/-- Models the host `String.prototype.trim`: strip leading and trailing
whitespace.  (Structural implementation; the core `String.trim` is
well-founded-recursive and does not reduce in the kernel.) -/
def jsTrim (s : String) : String :=
  String.mk (((s.data.dropWhile Char.isWhitespace).reverse.dropWhile
    Char.isWhitespace).reverse)

/-- Parts of a replayed assistant message (lines 2548-2564): `thinking` if
truthy, `text` if the content trims non-empty, then one `tool_call` part
per recorded call.  None of them carries an `isActive` flag. -/
def historyAssistantParts (msg : ApiMessage) : List MessagePart :=
  (match msg.thinking with
   | some t => if t ≠ "" then [{ type := "thinking", content := t }] else []
   | none => []) ++
  (match msg.content with
   | some c => if jsTrim c ≠ "" then [{ type := "text", content := c }] else []
   | none => []) ++
  (match msg.tool_calls with
   | some tcs =>
     if tcs.length > 0 then
       tcs.map (fun tc =>
         { type := "tool_call", tool_name := tc.tool_name,
           tool_call_id := tc.tool_call_id, arguments := tc.arguments })
     else []
   | none => [])

/-- The `for (const msg of data.messages)` loop with its pending
`currentAssistantMsg` accumulator and running `msgIndex`. -/
def buildHistoryGo : List ApiMessage → Nat → Option Message → List Message → List Message
  | [], _, pending, out => out ++ pending.toList
  | m :: rest, idx, pending, out =>
    let baseId := "hist-" ++ Nat.repr idx
    if m.type = "user" then
      buildHistoryGo rest (idx + 1) none
        (out ++ pending.toList ++ [{ id := baseId, role := .user, content := m.content.getD "" }])
    else if m.type = "assistant" then
      buildHistoryGo rest (idx + 1)
        (some { id := baseId, role := .assistant, content := m.content.getD "",
                parts := some (historyAssistantParts m) })
        (out ++ pending.toList)
    else if m.type = "tool_result" then
      buildHistoryGo rest (idx + 1) none
        (out ++ pending.toList ++
         [{ id := baseId, role := .tool_result, content := "",
            tool_call_id := m.tool_call_id, output := m.output }])
    else buildHistoryGo rest (idx + 1) pending out

def buildHistoryMessages (msgs : List ApiMessage) : List Message :=
  buildHistoryGo msgs 0 none []

/-- Spec-side part order for a replayed assistant message, written from
the spec's words: a `thinking` part if thinking is present (non-empty),
then a `text` part if the content is non-empty after trimming, then one
`tool_call` part per recorded call in recorded order; no part carries an
active flag. -/
def specAssistantParts (m : ApiMessage) : List MessagePart :=
  let thinkingParts : List MessagePart :=
    match m.thinking with
    | some t => if t = "" then [] else [{ type := "thinking", content := t }]
    | none => []
  let textParts : List MessagePart :=
    match m.content with
    | some c => if jsTrim c = "" then [] else [{ type := "text", content := c }]
    | none => []
  let toolCallParts : List MessagePart :=
    (m.tool_calls.getD []).map (fun tc =>
      { type := "tool_call", tool_name := tc.tool_name,
        tool_call_id := tc.tool_call_id, arguments := tc.arguments })
  thinkingParts ++ textParts ++ toolCallParts

/-- Spec-side replayer: one output turn per recognized history message, at
its original sequence position, with the part order the spec prescribes
(`thinking → text → tool_call*`; tool results as standalone sibling
turns).  Used as the refinement target for the claim about
`buildHistoryMessages`. -/
def specConvertMessage (idx : Nat) (m : ApiMessage) : Option Message :=
  if m.type = "user" then
    some { id := "hist-" ++ Nat.repr idx, role := .user, content := m.content.getD "" }
  else if m.type = "assistant" then
    some { id := "hist-" ++ Nat.repr idx, role := .assistant, content := m.content.getD "",
           parts := some (specAssistantParts m) }
  else if m.type = "tool_result" then
    some { id := "hist-" ++ Nat.repr idx, role := .tool_result, content := "",
           tool_call_id := m.tool_call_id, output := m.output }
  else none

def specReplay : List ApiMessage → Nat → List Message
  | [], _ => []
  | m :: rest, idx => (specConvertMessage idx m).toList ++ specReplay rest (idx + 1)

/-! ## Connection manager reconnect policy (lines 2620-2647) -/

def maxReconnectAttempts : Nat := 5

def reconnectDelay : Nat := 1000

structure CloseEvent where
  wasClean : Bool
  code : Nat

/-- Outcome of one run of `ws.onclose`: the attempt counter afterwards,
whether the unexpected-close error was logged, and the delay of a newly
scheduled reconnect timer (`none` when the cap stops scheduling). -/
structure CloseOutcome where
  reconnectAttempts : Nat
  loggedError : Bool
  scheduledDelay : Option Nat

/-- `ws.onclose` (lines 2634-2647).  Note the `!event.wasClean &&
event.code !== 1000` test guards only the `console.error` call; the
reconnect scheduling below it runs on every close while under the cap. -/
def wsOnClose (ev : CloseEvent) (reconnectAttempts : Nat) : CloseOutcome :=
  let logged := !ev.wasClean && ev.code != 1000
  if reconnectAttempts < maxReconnectAttempts then
    let attempts := reconnectAttempts + 1
    { reconnectAttempts := attempts, loggedError := logged,
      scheduledDelay := some (min (reconnectDelay * attempts) 10000) }
  else
    { reconnectAttempts := reconnectAttempts, loggedError := logged, scheduledDelay := none }

/-- `ws.onopen` (lines 2629-2632): reset on successful connection. -/
def wsOnOpen (_reconnectAttempts : Nat) : Nat := 0

/-- Attempt counter at the start of an effect run (a fresh run is started
by a conversation switch or by `handleVisibilityChange` bumping
`reconnectTrigger`, lines 2612-2665 and 2917-2931). -/
def effectInitialAttempts : Nat := 0

/-- Fold a burst of consecutive closes (no successful open in between):
final attempt counter plus the delays of all scheduled reconnects, in
order. -/
def runCloses (evs : List CloseEvent) (attempts : Nat) : Nat × List Nat :=
  match evs with
  | [] => (attempts, [])
  | ev :: rest =>
    let o := wsOnClose ev attempts
    let r := runCloses rest o.reconnectAttempts
    (r.1, o.scheduledDelay.toList ++ r.2)

/-! ## Spec-side definitions and invariants used by the claims -/

/-- Concatenation of a list of strings in order. -/
def strConcat (l : List String) : String :=
  l.foldl (fun a b => a ++ b) ""

/-- Spec-side description of what `tool_call_complete` does to one part:
an active `tool_call` part holding string arguments gets the parsed value
on success and retains the raw string on failure; every part's `isActive`
becomes `false`. -/
def specCompletePart (parse : String → Option JsonValue) (p : MessagePart) : MessagePart :=
  match p.arguments with
  | some (.str s) =>
    if p.type = "tool_call" ∧ p.isActive = some true then
      { p with arguments := some ((parse s).getD (.str s)), isActive := some false }
    else { p with isActive := some false }
  | _ => { p with isActive := some false }

/-- The per-message thinking bound of the single-active invariant: at most
one `thinking` part marked active. -/
def ThinkInv (st : ChatState) : Prop :=
  ∀ m ∈ st.messages, activeCount "thinking" (m.parts.getD []) ≤ 1

/-! ## Concrete scenario inputs referenced by the claims -/

/-- Turn A: a completed assistant turn holding the `Shell:0` tool call;
then Turn B starts streaming. -/
def c1TurnABEvents : List WsEvent :=
  [ .tool_call (some "Shell") (some "Shell:0") none (some "\x7b\x7d"),
    .tool_call_complete,
    .complete none none,
    .chunk "turn B text" ]

/-- A `tool_call` frame carrying a fully-structured arguments object while
no turn is open, followed by a streaming `tool_call` frame with a raw
fragment: the first part stays active when the second is pushed. -/
def c2CexEvents : List WsEvent :=
  [ .tool_call (some "A") (some "A:0") (some (.obj [])) none,
    .tool_call (some "B") (some "B:0") none (some "\x7b") ]

/-- A streaming tool call accumulating the unparsable string
`"\x7bincomplete"`, then `tool_call_complete`. -/
def c4CexEvents : List WsEvent :=
  [ .tool_call (some "Shell") (some "Shell:0") none (some "\x7bincomplete"),
    .tool_call_complete ]

/-- The spec's idempotent-replay history:
`[user:"hi", assistant{thinking:"t", content:"hello",
tool_calls:[Shell]}, tool_result{Shell:0, output:"/"}]`. -/
def c6History : List ApiMessage :=
  [ { type := "user", content := some "hi" },
    { type := "assistant", content := some "hello", thinking := some "t",
      tool_calls := some
        [{ tool_name := "Shell", tool_call_id := some "Shell:0",
           arguments := some (.obj [("cmd", .str "ls")]) }] },
    { type := "tool_result", tool_call_id := some "Shell:0", output := some "/" } ]

/-- Live streaming of the equivalent assistant content: thinking fragment,
text chunk, streamed tool call, then the terminal event. -/
def c6LiveEvents : List WsEvent :=
  [ .think "t",
    .chunk "hello",
    .tool_call (some "Shell") (some "Shell:0") none (some "\x7b\"cmd\": \"ls\"\x7d"),
    .tool_call_complete,
    .complete none none ]

/-! # Helper lemmas -/

theorem updateFirstById_eq_none (msgs : List Message) (sid : String) (f : Message → Message) :
    updateFirstById msgs sid f = none ↔ msgs.find? (fun m => m.id = sid) = none := by
  induction msgs with
  | nil => simp [updateFirstById]
  | cons m rest ih =>
    by_cases h : m.id = sid
    · simp [updateFirstById, List.find?, h]
    · simp [updateFirstById, List.find?, h, ih]

theorem updateFirstById_find? (sid : String) (f : Message → Message)
    (hf : ∀ m, (f m).id = m.id) :
    ∀ (msgs msgs' : List Message) (m0 : Message),
      msgs.find? (fun m => m.id = sid) = some m0 →
      updateFirstById msgs sid f = some msgs' →
      msgs'.find? (fun m => m.id = sid) = some (f m0) := by
  intro msgs
  induction msgs with
  | nil => intro msgs' m0 h; simp at h
  | cons m rest ih =>
    intro msgs' m0 hfind hupd
    by_cases h : m.id = sid
    · simp [updateFirstById, h] at hupd
      rw [List.find?_cons_of_pos _ (by simp [h])] at hfind
      obtain rfl := Option.some.inj hfind
      rw [← hupd]
      exact List.find?_cons_of_pos _ (by simp [hf m, h])
    · simp [updateFirstById, h] at hupd
      rw [List.find?_cons_of_neg _ (by simp [h])] at hfind
      obtain ⟨tl, htl, rfl⟩ := hupd
      rw [List.find?_cons_of_neg _ (by simp [h])]
      exact ih tl m0 hfind htl

theorem updateFirstById_mem (sid : String) (f : Message → Message) :
    ∀ (msgs msgs' : List Message), updateFirstById msgs sid f = some msgs' →
      ∀ x ∈ msgs', x ∈ msgs ∨ ∃ y ∈ msgs, x = f y := by
  intro msgs
  induction msgs with
  | nil => intro msgs' h; simp [updateFirstById] at h
  | cons m rest ih =>
    intro msgs' hupd x hx
    by_cases h : m.id = sid
    · simp [updateFirstById, h] at hupd
      rw [← hupd] at hx
      rcases List.mem_cons.mp hx with rfl | hx
      · exact Or.inr ⟨m, List.mem_cons_self m rest, rfl⟩
      · exact Or.inl (List.mem_cons_of_mem m hx)
    · simp [updateFirstById, h] at hupd
      obtain ⟨tl, htl, rfl⟩ := hupd
      rcases List.mem_cons.mp hx with rfl | hx
      · exact Or.inl (List.mem_cons_self x rest)
      · rcases ih tl htl x hx with h1 | ⟨y, hy, hxy⟩
        · exact Or.inl (List.mem_cons_of_mem m h1)
        · exact Or.inr ⟨y, List.mem_cons_of_mem m hy, hxy⟩

theorem updateStreamingMessage_of_none (st : ChatState)
    (fn : List MessagePart → List MessagePart) (cnp : Option MessagePart)
    (h : openMessage st = none) :
    updateStreamingMessage st fn cnp = createStreamingMessage st cnp := by
  unfold updateStreamingMessage
  match hs : st.streamingMsgId with
  | none => rfl
  | some sid =>
    have hfind : st.messages.find? (fun m => m.id = sid) = none := by
      have h' := h
      unfold openMessage at h'
      rw [hs] at h'
      exact h'
    have : updateFirstById st.messages sid
        (fun msg => { msg with parts := some (fn (msg.parts.getD [])) }) = none :=
      (updateFirstById_eq_none _ _ _).mpr hfind
    simp [this]

theorem openMessage_update (st : ChatState)
    (fn : List MessagePart → List MessagePart) (cnp : Option MessagePart)
    (m0 : Message) (h : openMessage st = some m0) :
    openMessage (updateStreamingMessage st fn cnp) =
      some { m0 with parts := some (fn (m0.parts.getD [])) } ∧
    (updateStreamingMessage st fn cnp).streamingMsgId = st.streamingMsgId ∧
    (updateStreamingMessage st fn cnp).now = st.now := by
  match hs : st.streamingMsgId with
  | none =>
    have h' := h
    unfold openMessage at h'
    rw [hs] at h'
    exact absurd h' (by simp)
  | some sid =>
    have hfind0 : st.messages.find? (fun m => m.id = sid) = some m0 := by
      have h' := h
      unfold openMessage at h'
      rw [hs] at h'
      exact h'
    have hne : updateFirstById st.messages sid
        (fun msg => { msg with parts := some (fn (msg.parts.getD [])) }) ≠ none := by
      intro hnone
      rw [(updateFirstById_eq_none _ _ _).mp hnone] at hfind0
      exact Option.noConfusion hfind0
    match hu : updateFirstById st.messages sid
        (fun msg => { msg with parts := some (fn (msg.parts.getD [])) }) with
    | none => exact absurd hu hne
    | some msgs' =>
      have hfind := updateFirstById_find? sid
        (fun msg => { msg with parts := some (fn (msg.parts.getD [])) })
        (fun m => rfl) st.messages msgs' m0 hfind0 hu
      refine ⟨?_, ?_, ?_⟩
      · unfold updateStreamingMessage
        simp only [hs, hu]
        unfold openMessage
        exact hfind
      · unfold updateStreamingMessage
        simp only [hs, hu]
      · unfold updateStreamingMessage
        simp only [hs, hu]

theorem openParts_update (st : ChatState)
    (fn : List MessagePart → List MessagePart) (cnp : Option MessagePart)
    (m0 : Message) (h : openMessage st = some m0) :
    openParts (updateStreamingMessage st fn cnp) = some (fn (m0.parts.getD [])) := by
  obtain ⟨h1, _, _⟩ := openMessage_update st fn cnp m0 h
  simp [openParts, h1]

/-! # Claims -/

/-- C9: processing a `status` event leaves the transcript and the
streaming-message pointer (and the rest of the state) unchanged; only the
side-channel status info is replaced by the event's usage fields. -/
theorem claim_C9 (parse : String → Option JsonValue) (st : ChatState)
    (cu tu : Option Int) :
    (handleMessage parse st (.status cu tu)).messages = st.messages ∧
    (handleMessage parse st (.status cu tu)).streamingMsgId = st.streamingMsgId ∧
    (handleMessage parse st (.status cu tu)).isLoading = st.isLoading ∧
    (handleMessage parse st (.status cu tu)).now = st.now ∧
    (handleMessage parse st (.status cu tu)).statusInfo =
      { context_usage := cu, token_usage := tu } :=
  ⟨rfl, rfl, rfl, rfl, rfl⟩

/-- C10: a `tool_call_chunk` event arriving while no turn is open (the
streaming pointer is `null` or refers to no existing message) creates a
brand-new open assistant turn with an empty parts list — it is not a
no-op, and the chunk's content appears nowhere in the new state. -/
theorem claim_C10 (parse : String → Option JsonValue) (st : ChatState)
    (c : Option String) (h : openMessage st = none) :
    handleMessage parse st (.tool_call_chunk c) =
      { st with
        messages := st.messages ++
          [{ id := streamingIdOf st.now, role := .assistant, content := "",
             parts := some [] }]
        streamingMsgId := some (streamingIdOf st.now)
        now := st.now + 1 } := by
  show updateStreamingMessage st (toolCallChunkUpdate c) none = _
  rw [updateStreamingMessage_of_none st _ none h]
  rfl

/-- C10 witness: from the initial state (no open turn), a
`tool_call_chunk` creates a fresh assistant turn with empty parts. -/
theorem claim_C10_witness :
    handleMessage jsonParse initialState (.tool_call_chunk (some "lost")) =
      { initialState with
        messages := [{ id := streamingIdOf 0, role := .assistant, content := "",
                       parts := some [] }]
        streamingMsgId := some (streamingIdOf 0)
        now := 1 } :=
  claim_C10 jsonParse initialState (some "lost") rfl

/-- C3: a standalone `tool_result` event always clears the streaming
pointer, so any subsequent fragment event (`chunk`, `think`, `tool_call`)
appends a brand-new assistant turn instead of mutating the turn that just
received its result. -/
theorem claim_C3 (parse : String → Option JsonValue) (st : ChatState)
    (tcid : Option String) (out : Option String) :
    (handleMessage parse st (.tool_result tcid out)).streamingMsgId = none ∧
    (∀ c : String,
      handleMessage parse (handleMessage parse st (.tool_result tcid out)) (.chunk c) =
        { handleMessage parse st (.tool_result tcid out) with
          messages := (handleMessage parse st (.tool_result tcid out)).messages ++
            [{ id := streamingIdOf (st.now + 1), role := .assistant, content := "",
               parts := some [textPart c] }]
          streamingMsgId := some (streamingIdOf (st.now + 1))
          now := st.now + 2 }) ∧
    (∀ c : String,
      handleMessage parse (handleMessage parse st (.tool_result tcid out)) (.think c) =
        { handleMessage parse st (.tool_result tcid out) with
          messages := (handleMessage parse st (.tool_result tcid out)).messages ++
            [{ id := streamingIdOf (st.now + 1), role := .assistant, content := "",
               parts := some [thinkingPart c true] }]
          streamingMsgId := some (streamingIdOf (st.now + 1))
          now := st.now + 2 }) ∧
    (∀ (name tc2 : Option String) (args : Option JsonValue) (raw : Option String),
      handleMessage parse (handleMessage parse st (.tool_result tcid out))
          (.tool_call name tc2 args raw) =
        { handleMessage parse st (.tool_result tcid out) with
          messages := (handleMessage parse st (.tool_result tcid out)).messages ++
            [{ id := streamingIdOf (st.now + 1), role := .assistant, content := "",
               parts := some [toolCallPart (name.getD "unknown") tc2
                 (some (toolCallInitialArgs args raw)) true] }]
          streamingMsgId := some (streamingIdOf (st.now + 1))
          now := st.now + 2 }) :=
  ⟨rfl, fun _ => rfl, fun _ => rfl, fun _ _ _ _ => rfl⟩

theorem runCloses_delays (evs : List CloseEvent) :
    ∀ a : Nat,
      (runCloses evs a).2 =
        (List.range (min evs.length (maxReconnectAttempts - a))).map
          (fun k => min (reconnectDelay * (a + k + 1)) 10000) := by
  induction evs with
  | nil => intro a; simp [runCloses]
  | cons ev rest ih =>
    intro a
    by_cases h : a < maxReconnectAttempts
    · have h5 : maxReconnectAttempts - a = (maxReconnectAttempts - (a + 1)) + 1 := by omega
      simp only [runCloses, wsOnClose, if_pos h, Option.toList_some, List.length_cons]
      rw [ih (a + 1), h5, Nat.succ_min_succ, List.range_succ_eq_map, List.map_cons,
        List.map_map]
      have hfun : ((fun k => min (reconnectDelay * (a + k + 1)) 10000) ∘ Nat.succ) =
          (fun k => min (reconnectDelay * (a + 1 + k + 1)) 10000) := by
        funext k
        simp only [Function.comp]
        congr 2
        omega
      rw [hfun]
      simp
    · have h5 : maxReconnectAttempts - a = 0 := by omega
      simp only [runCloses, wsOnClose, if_neg h, Option.toList_none, List.nil_append,
        List.length_cons]
      rw [ih a, h5]
      simp

/-- C7: while one conversation stays selected (one run of the connection
effect), at most `maxReconnectAttempts = 5` reconnect attempts are
scheduled after consecutive closes — exactly `min n 5` for `n` closes,
the k-th with delay `min(k * 1000, 10000)` — so a 6th automatic attempt
is never scheduled within the run (a conversation switch or visibility
regain starts a new run at `effectInitialAttempts = 0`), and a successful
open resets the attempt counter to zero. -/
theorem claim_C7 (evs : List CloseEvent) :
    (runCloses evs effectInitialAttempts).2 =
      (List.range (min evs.length maxReconnectAttempts)).map
        (fun k => min (reconnectDelay * (k + 1)) 10000) ∧
    (runCloses evs effectInitialAttempts).2.length = min evs.length maxReconnectAttempts ∧
    (runCloses evs effectInitialAttempts).2.length ≤ maxReconnectAttempts ∧
    (∀ a : Nat, wsOnOpen a = 0) := by
  have h := runCloses_delays evs 0
  simp only [Nat.sub_zero, Nat.zero_add] at h
  have hlen : (runCloses evs effectInitialAttempts).2.length =
      min evs.length maxReconnectAttempts := by
    show (runCloses evs 0).2.length = _
    rw [h]
    simp
  exact ⟨h, hlen, by rw [hlen]; exact Nat.min_le_right _ _, fun a => rfl⟩

/-- C8 counterexample: a clean close with code 1000 at attempt counter 0
still schedules a reconnect attempt (with delay 1000 ms) — the
cleanliness test in `ws.onclose` guards only the `console.error` call. -/
theorem claim_C8_cex :
    (wsOnClose { wasClean := true, code := 1000 } 0).scheduledDelay = some 1000 ∧
    (wsOnClose { wasClean := true, code := 1000 } 0).loggedError = false := by
  constructor <;> rfl

/-- C8 (amended): a reconnect attempt is scheduled on every close — clean
or not, whatever the close code — while fewer than 5 attempts have been
made, with delay `min((attempts+1) * 1000, 10000)`; at the cap nothing is
scheduled; the `wasClean`/`code ≠ 1000` test only decides whether the
unexpected-close error is logged. -/
theorem claim_C8 (ev : CloseEvent) (attempts : Nat) :
    (attempts < maxReconnectAttempts →
      (wsOnClose ev attempts).scheduledDelay =
        some (min (reconnectDelay * (attempts + 1)) 10000)) ∧
    (maxReconnectAttempts ≤ attempts → (wsOnClose ev attempts).scheduledDelay = none) ∧
    (wsOnClose ev attempts).loggedError = (!ev.wasClean && ev.code != 1000) := by
  refine ⟨fun h => ?_, fun h => ?_, ?_⟩
  · simp [wsOnClose, if_pos h]
  · simp [wsOnClose, Nat.not_lt.mpr h]
  · by_cases h : attempts < maxReconnectAttempts <;> simp [wsOnClose, h]

/-- C8 witness: concrete instantiations — a clean 1000-close at attempt 0
schedules a 1000 ms retry; at attempt counter 7 nothing is scheduled. -/
theorem claim_C8_witness :
    (wsOnClose { wasClean := true, code := 1000 } 0).scheduledDelay =
      some (min (reconnectDelay * (0 + 1)) 10000) ∧
    (wsOnClose { wasClean := false, code := 1006 } 7).scheduledDelay = none :=
  ⟨(claim_C8 { wasClean := true, code := 1000 } 0).1 (by decide),
   (claim_C8 { wasClean := false, code := 1006 } 7).2.1 (by decide)⟩

theorem toolResultInsertIndexGo_spec (tcid : Option String) :
    ∀ (msgs : List Message) (i fallback : Nat),
      toolResultInsertIndexGo tcid msgs i fallback =
        match msgs.findIdx? (fun m => hasMatchingToolCall m tcid) i with
        | some j => j + 1
        | none => fallback := by
  intro msgs
  induction msgs with
  | nil => intro i fallback; rfl
  | cons m rest ih =>
    intro i fallback
    by_cases h : hasMatchingToolCall m tcid
    · simp [toolResultInsertIndexGo, h]
    · simp [toolResultInsertIndexGo, h, ih]

theorem toolResultInsertIndex_spec (msgs : List Message) (tcid : Option String) :
    toolResultInsertIndex msgs tcid =
      match msgs.findIdx? (fun m => hasMatchingToolCall m tcid) with
      | some j => j + 1
      | none => msgs.length :=
  toolResultInsertIndexGo_spec tcid msgs 0 msgs.length

/-- C1: a `tool_result` event inserts a new `tool_result`-role message
immediately after the first transcript message satisfying the handler's
match predicate (assistant role, a `tool_call` part with the event's
`tool_call_id`); with no match it is appended at the end, and in every
case the transcript grows by exactly one message — the result is never
dropped.  The final conjunct is the concrete out-of-order scenario: with
completed Turn A holding `Shell:0` and Turn B streaming, the result for
`Shell:0` lands immediately after Turn A, not after Turn B. -/
theorem claim_C1 (parse : String → Option JsonValue) (st : ChatState)
    (tcid : Option String) (out : Option String) :
    (match st.messages.findIdx? (fun m => hasMatchingToolCall m tcid) with
     | some i =>
       (handleMessage parse st (.tool_result tcid out)).messages =
         st.messages.take (i + 1) ++ [mkToolResultMsg st.now tcid out] ++
           st.messages.drop (i + 1)
     | none =>
       (handleMessage parse st (.tool_result tcid out)).messages =
         st.messages ++ [mkToolResultMsg st.now tcid out]) ∧
    (handleMessage parse st (.tool_result tcid out)).messages.length =
      st.messages.length + 1 ∧
    ((runEvents jsonParse initialState
        (c1TurnABEvents ++ [.tool_result (some "Shell:0") (some "/home")])).messages.map
      (fun m => (m.role, m.tool_call_id)) =
      [(.assistant, none), (.tool_result, some "Shell:0"), (.assistant, none)] ∧
     (runEvents jsonParse initialState c1TurnABEvents).messages.map
      (fun m => hasMatchingToolCall m (some "Shell:0")) = [true, false]) := by
  have hmsgs : (handleMessage parse st (.tool_result tcid out)).messages =
      st.messages.take (toolResultInsertIndex st.messages tcid) ++
        [mkToolResultMsg st.now tcid out] ++
        st.messages.drop (toolResultInsertIndex st.messages tcid) := rfl
  have hlen : ∀ (l : List Message) (n : Nat) (x : Message),
      (l.take n ++ [x] ++ l.drop n).length = l.length + 1 := by
    intro l n x
    simp [List.length_take, List.length_drop]
    omega
  refine ⟨?_, ?_, by constructor <;> rfl⟩
  · rw [toolResultInsertIndex_spec] at hmsgs
    match hidx : st.messages.findIdx? (fun m => hasMatchingToolCall m tcid) with
    | some i =>
      rw [hidx] at hmsgs
      exact hmsgs
    | none =>
      rw [hidx] at hmsgs
      simpa [List.take_length, List.drop_length] using hmsgs
  · rw [hmsgs]
    exact hlen _ _ _

theorem specCompletePart_isActive (parse : String → Option JsonValue) (p : MessagePart) :
    (specCompletePart parse p).isActive = some false := by
  unfold specCompletePart
  split
  · split
    · rfl
    · rfl
  · rfl

theorem toolCallCompleteUpdate_eq_map (parse : String → Option JsonValue)
    (parts : List MessagePart) :
    toolCallCompleteUpdate parse parts = parts.map (specCompletePart parse) := by
  unfold toolCallCompleteUpdate
  apply List.map_congr_left
  intro p _
  rcases p with ⟨ty, co, tn, tci, args, act⟩
  rcases args with _ | v
  · rfl
  · rcases v with _ | b | n | s | a | o
    · rfl
    · rfl
    · rfl
    · by_cases hty : ty = "tool_call" ∧ act = some true
      · rcases hp : parse s with _ | parsed <;> simp [specCompletePart, hty, hp]
      · simp [specCompletePart, hty]
    · rfl
    · rfl

/-- C4: on `tool_call_complete`, the open turn's parts are mapped by a
per-part transform under which an active `tool_call` part holding string
arguments gets the parsed value when the string is well-formed JSON
(`parse s = some v`) and retains the raw string otherwise, and every
part's `isActive` becomes `false`; as a total function of the
accumulated string the handler cannot throw.  The final conjunct is the
spec's parse-failure example: the accumulated string `"\x7bincomplete"`
stays a raw string with `isActive = false`. -/
theorem claim_C4 (parse : String → Option JsonValue) (st : ChatState) (m0 : Message)
    (h : openMessage st = some m0) :
    openParts (handleMessage parse st .tool_call_complete) =
      some ((m0.parts.getD []).map (specCompletePart parse)) ∧
    (∀ parts : List MessagePart,
      toolCallCompleteUpdate parse parts = parts.map (specCompletePart parse)) ∧
    (∀ p : MessagePart, (specCompletePart parse p).isActive = some false) ∧
    openParts (runEvents jsonParse initialState c4CexEvents) =
      some [{ type := "tool_call", tool_name := "Shell", tool_call_id := some "Shell:0",
              arguments := some (.str "\x7bincomplete"), isActive := some false }] := by
  refine ⟨?_, toolCallCompleteUpdate_eq_map parse, specCompletePart_isActive parse, rfl⟩
  have := openParts_update st (toolCallCompleteUpdate parse) none m0 h
  rw [toolCallCompleteUpdate_eq_map] at this
  exact this

/-- C4 witness: after streaming the raw fragment into an open turn, the
`tool_call_complete` handler maps the turn's single part as described. -/
theorem claim_C4_witness :
    openParts (handleMessage jsonParse
      (runEvents jsonParse initialState
        [.tool_call (some "Shell") (some "Shell:0") none (some "\x7bincomplete")])
      .tool_call_complete) =
      some ((({ id := streamingIdOf 0, role := .assistant, content := "",
                parts := some [toolCallPart "Shell" (some "Shell:0")
                  (some (.str "\x7bincomplete")) true] } : Message).parts.getD []).map
        (specCompletePart jsonParse)) :=
  (claim_C4 jsonParse
    (runEvents jsonParse initialState
      [.tool_call (some "Shell") (some "Shell:0") none (some "\x7bincomplete")])
    { id := streamingIdOf 0, role := .assistant, content := "",
      parts := some [toolCallPart "Shell" (some "Shell:0")
        (some (.str "\x7bincomplete")) true] } rfl).1

theorem strConcat_shift (l : List String) :
    ∀ a b : String, l.foldl (fun x y => x ++ y) (a ++ b) =
      a ++ l.foldl (fun x y => x ++ y) b := by
  induction l with
  | nil => intro a b; rfl
  | cons c cs ih =>
    intro a b
    simp only [List.foldl_cons]
    rw [String.append_assoc, ih]

theorem strConcat_cons (c : String) (cs : List String) :
    strConcat (c :: cs) = c ++ strConcat cs := by
  show List.foldl (fun x y => x ++ y) ("" ++ c) cs = c ++ strConcat cs
  rw [String.empty_append, ← String.append_empty c, strConcat_shift, String.append_empty]
  rfl

theorem eq_dropLast_concat_of_getLast? {α : Type} (l : List α) (a : α)
    (h : l.getLast? = some a) : l = l.dropLast ++ [a] := by
  induction l using List.reverseRecOn with
  | nil => simp at h
  | append_singleton l b _ =>
    rw [List.getLast?_concat] at h
    obtain rfl := Option.some.inj h
    rw [List.dropLast_concat]

theorem openParts_create (st : ChatState) (cnp : Option MessagePart)
    (hfresh : ∀ m ∈ st.messages, m.id ≠ streamingIdOf st.now) :
    openParts (createStreamingMessage st cnp) =
      some (match cnp with | some p => [p] | none => []) := by
  unfold openParts openMessage createStreamingMessage
  simp only [List.find?_append]
  have hnone : st.messages.find? (fun m => m.id = streamingIdOf st.now) = none :=
    List.find?_eq_none.mpr (fun m hm => by simp [hfresh m hm])
  rw [hnone]
  simp

theorem chunkUpdate_concat_text (c : String) (pre : List MessagePart) (t : MessagePart)
    (ht : t.type = "text") :
    chunkUpdate c (pre ++ [t]) = pre ++ [{ t with content := t.content ++ c }] := by
  unfold chunkUpdate
  simp only [List.getLast?_concat]
  rw [if_pos ht, List.dropLast_concat]

theorem chunk_fold (parse : String → Option JsonValue) :
    ∀ (cs : List String) (st : ChatState) (pre : List MessagePart) (t : MessagePart),
      t.type = "text" →
      openParts st = some (pre ++ [t]) →
      openParts (runEvents parse st (cs.map WsEvent.chunk)) =
        some (pre ++ [{ t with content := t.content ++ strConcat cs }]) := by
  intro cs
  induction cs with
  | nil =>
    intro st pre t ht h
    have heta : ({ t with content := t.content ++ strConcat [] } : MessagePart) = t := by
      show ({ t with content := t.content ++ "" } : MessagePart) = t
      rw [String.append_empty]
    show openParts st = _
    rw [heta]
    exact h
  | cons c cs ih =>
    intro st pre t ht h
    obtain ⟨m0, hm0, hparts⟩ : ∃ m0, openMessage st = some m0 ∧
        m0.parts.getD [] = pre ++ [t] := by
      unfold openParts at h
      cases hom : openMessage st with
      | none => rw [hom] at h; simp at h
      | some m0 =>
        rw [hom] at h
        have h' : some (m0.parts.getD []) = some (pre ++ [t]) := h
        exact ⟨m0, rfl, Option.some.inj h'⟩
    have hstep := openParts_update st (chunkUpdate c) (some (textPart c)) m0 hm0
    rw [hparts, chunkUpdate_concat_text c pre t ht] at hstep
    have hrec := ih (handleMessage parse st (.chunk c)) pre
      { t with content := t.content ++ c } ht hstep
    show openParts (runEvents parse (handleMessage parse st (.chunk c)) (cs.map .chunk)) = _
    rw [hrec, strConcat_cons, ← String.append_assoc]

/-- C5: folding a nonempty run of `chunk` events into the client state
appends their concatenated contents, in arrival order, to the trailing
`Text` part when the open turn ends in one; otherwise a new `Text` part
seeded with the concatenation is pushed (after the open turn's existing
parts, or as the sole part of a freshly created turn when none is open). -/
theorem claim_C5 (parse : String → Option JsonValue) (st : ChatState)
    (c : String) (cs : List String) :
    (∀ (parts : List MessagePart) (lp : MessagePart),
      openParts st = some parts → parts.getLast? = some lp → lp.type = "text" →
      openParts (runEvents parse st ((c :: cs).map WsEvent.chunk)) =
        some (parts.dropLast ++
          [{ lp with content := lp.content ++ strConcat (c :: cs) }])) ∧
    (∀ (parts : List MessagePart) (lp : MessagePart),
      openParts st = some parts → parts.getLast? = some lp → ¬ lp.type = "text" →
      openParts (runEvents parse st ((c :: cs).map WsEvent.chunk)) =
        some (parts ++ [textPart (strConcat (c :: cs))])) ∧
    (∀ parts : List MessagePart,
      openParts st = some parts → parts.getLast? = none →
      openParts (runEvents parse st ((c :: cs).map WsEvent.chunk)) =
        some [textPart (strConcat (c :: cs))]) ∧
    (openMessage st = none →
      (∀ m ∈ st.messages, m.id ≠ streamingIdOf st.now) →
      openParts (runEvents parse st ((c :: cs).map WsEvent.chunk)) =
        some [textPart (strConcat (c :: cs))]) := by
  have hopen : ∀ (parts : List MessagePart), openParts st = some parts →
      ∃ m0, openMessage st = some m0 ∧ m0.parts.getD [] = parts := by
    intro parts h
    unfold openParts at h
    cases hom : openMessage st with
    | none => rw [hom] at h; simp at h
    | some m0 =>
      rw [hom] at h
      have h' : some (m0.parts.getD []) = some parts := h
      exact ⟨m0, rfl, Option.some.inj h'⟩
  refine ⟨?_, ?_, ?_, ?_⟩
  · intro parts lp h hlast htext
    have hsplit := eq_dropLast_concat_of_getLast? parts lp hlast
    rw [hsplit] at h
    exact chunk_fold parse (c :: cs) st parts.dropLast lp htext h
  · intro parts lp h hlast htext
    obtain ⟨m0, hm0, hparts⟩ := hopen parts h
    have hstep := openParts_update st (chunkUpdate c) (some (textPart c)) m0 hm0
    have hcu : chunkUpdate c parts = parts ++ [textPart c] := by
      unfold chunkUpdate
      rw [hlast]
      simp only [if_neg htext]
    rw [hparts, hcu] at hstep
    have hrec := chunk_fold parse cs (handleMessage parse st (.chunk c)) parts
      (textPart c) rfl hstep
    show openParts (runEvents parse (handleMessage parse st (.chunk c)) (cs.map .chunk)) = _
    rw [hrec, strConcat_cons]
    rfl
  · intro parts h hlast
    obtain rfl := List.getLast?_eq_none_iff.mp hlast
    obtain ⟨m0, hm0, hparts⟩ := hopen [] h
    have hstep := openParts_update st (chunkUpdate c) (some (textPart c)) m0 hm0
    rw [hparts] at hstep
    have hrec := chunk_fold parse cs (handleMessage parse st (.chunk c)) []
      (textPart c) rfl hstep
    show openParts (runEvents parse (handleMessage parse st (.chunk c)) (cs.map .chunk)) = _
    rw [hrec, strConcat_cons]
    rfl
  · intro hnone hfresh
    have hstep : openParts (handleMessage parse st (.chunk c)) = some [textPart c] := by
      show openParts (updateStreamingMessage st (chunkUpdate c) (some (textPart c))) = _
      rw [updateStreamingMessage_of_none st _ _ hnone]
      exact openParts_create st (some (textPart c)) hfresh
    have hrec := chunk_fold parse cs (handleMessage parse st (.chunk c)) []
      (textPart c) rfl hstep
    show openParts (runEvents parse (handleMessage parse st (.chunk c)) (cs.map .chunk)) = _
    rw [hrec, strConcat_cons]
    rfl

/-- C5 witness: three chunks into the initial state produce one open
assistant turn whose single `Text` part holds the concatenation. -/
theorem claim_C5_witness :
    openParts (runEvents jsonParse initialState
      (("a" :: ["b", "c"]).map WsEvent.chunk)) =
      some [textPart (strConcat ("a" :: ["b", "c"]))] :=
  (claim_C5 jsonParse initialState "a" ["b", "c"]).2.2.2 rfl
    (fun m hm => absurd hm (List.not_mem_nil m))

theorem activeCount_nil (ty : String) : activeCount ty [] = 0 := rfl

theorem activeCount_cons (ty : String) (p : MessagePart) (l : List MessagePart) :
    activeCount ty (p :: l) = (if partActive ty p then 1 else 0) + activeCount ty l := by
  unfold activeCount
  rw [List.filter_cons]
  split
  · simp [Nat.add_comm]
  · simp

theorem activeCount_append (ty : String) (l₁ l₂ : List MessagePart) :
    activeCount ty (l₁ ++ l₂) = activeCount ty l₁ + activeCount ty l₂ := by
  unfold activeCount
  rw [List.filter_append, List.length_append]

theorem activeCount_singleton (ty : String) (p : MessagePart) :
    activeCount ty [p] = if partActive ty p then 1 else 0 := by
  rw [activeCount_cons, activeCount_nil, Nat.add_zero]

theorem activeCount_singleton_le (ty : String) (p : MessagePart) :
    activeCount ty [p] ≤ 1 := by
  rw [activeCount_singleton]
  split <;> simp

theorem activeCount_map_zero (ty : String) (g : MessagePart → MessagePart) :
    ∀ l : List MessagePart, (∀ p ∈ l, partActive ty (g p) = false) →
      activeCount ty (l.map g) = 0 := by
  intro l
  induction l with
  | nil => intro _; rfl
  | cons p l ih =>
    intro h
    rw [List.map_cons, activeCount_cons, h p (List.mem_cons_self p l),
      ih (fun q hq => h q (List.mem_cons_of_mem p hq))]
    simp

theorem activeCount_map_congr (ty : String) (g : MessagePart → MessagePart) :
    ∀ l : List MessagePart, (∀ p ∈ l, partActive ty (g p) = partActive ty p) →
      activeCount ty (l.map g) = activeCount ty l := by
  intro l
  induction l with
  | nil => intro _; rfl
  | cons p l ih =>
    intro h
    rw [List.map_cons, activeCount_cons, activeCount_cons, h p (List.mem_cons_self p l),
      ih (fun q hq => h q (List.mem_cons_of_mem p hq))]

theorem thinkOk_append_of_inactive (parts : List MessagePart) (p : MessagePart)
    (h : activeCount "thinking" parts ≤ 1) (hp : partActive "thinking" p = false) :
    activeCount "thinking" (parts ++ [p]) ≤ 1 := by
  rw [activeCount_append, activeCount_singleton, hp]
  simpa using h

theorem thinkOk_replace_last (parts : List MessagePart) (lp q : MessagePart)
    (hlast : parts.getLast? = some lp)
    (hq : partActive "thinking" q = partActive "thinking" lp)
    (h : activeCount "thinking" parts ≤ 1) :
    activeCount "thinking" (parts.dropLast ++ [q]) ≤ 1 := by
  have hsplit := eq_dropLast_concat_of_getLast? parts lp hlast
  rw [hsplit, activeCount_append, activeCount_singleton] at h
  rw [activeCount_append, activeCount_singleton, hq]
  exact h

theorem deactivateThinking_zero (parts : List MessagePart) :
    activeCount "thinking" (deactivateThinking parts) = 0 := by
  unfold deactivateThinking
  apply activeCount_map_zero
  intro p _
  by_cases h : p.type = "thinking"
  · simp [h, partActive]
  · simp [h, partActive]

theorem chunkUpdate_thinkOk (c : String) (parts : List MessagePart)
    (h : activeCount "thinking" parts ≤ 1) :
    activeCount "thinking" (chunkUpdate c parts) ≤ 1 := by
  unfold chunkUpdate
  cases hlast : parts.getLast? with
  | none =>
    show activeCount "thinking" (parts ++ [textPart c]) ≤ 1
    exact thinkOk_append_of_inactive parts _ h (by simp [partActive, textPart])
  | some lp =>
    show activeCount "thinking"
      (if lp.type = "text" then parts.dropLast ++ [{ lp with content := lp.content ++ c }]
       else parts ++ [textPart c]) ≤ 1
    by_cases ht : lp.type = "text"
    · rw [if_pos ht]
      exact thinkOk_replace_last parts lp _ hlast rfl h
    · rw [if_neg ht]
      exact thinkOk_append_of_inactive parts _ h (by simp [partActive, textPart])

theorem thinkUpdate_thinkOk (c : String) (parts : List MessagePart)
    (h : activeCount "thinking" parts ≤ 1) :
    activeCount "thinking" (thinkUpdate c parts) ≤ 1 := by
  have hpush : activeCount "thinking" (deactivateThinking parts ++ [thinkingPart c true]) ≤ 1 := by
    rw [activeCount_append, activeCount_singleton, deactivateThinking_zero]
    split <;> simp
  unfold thinkUpdate
  cases hlast : parts.getLast? with
  | none =>
    show activeCount "thinking" (deactivateThinking parts ++ [thinkingPart c true]) ≤ 1
    exact hpush
  | some lp =>
    show activeCount "thinking"
      (if lp.type = "thinking" ∧ lp.isActive = some true then
        parts.dropLast ++ [{ lp with content := lp.content ++ c }]
       else deactivateThinking parts ++ [thinkingPart c true]) ≤ 1
    by_cases ht : lp.type = "thinking" ∧ lp.isActive = some true
    · rw [if_pos ht]
      exact thinkOk_replace_last parts lp _ hlast rfl h
    · rw [if_neg ht]
      exact hpush

theorem toolCallAppendToActive_thinkOk (initialArgs : JsonValue)
    (parts res : List MessagePart)
    (happ : toolCallAppendToActive initialArgs parts = some res)
    (h : activeCount "thinking" parts ≤ 1) :
    activeCount "thinking" res ≤ 1 := by
  unfold toolCallAppendToActive at happ
  split at happ
  · split at happ
    · split at happ
      · obtain rfl := Option.some.inj happ
        exact thinkOk_replace_last parts _ _ (by assumption) (by rfl) h
      · exact Option.noConfusion happ
    · exact Option.noConfusion happ
  · exact Option.noConfusion happ

theorem toolCallUpdate_thinkOk (name tcid : Option String) (args : Option JsonValue)
    (raw : Option String) (parts : List MessagePart)
    (h : activeCount "thinking" parts ≤ 1) :
    activeCount "thinking" (toolCallUpdate name tcid args raw parts) ≤ 1 := by
  have hpushOk : ∀ v : Option JsonValue, activeCount "thinking"
      (parts ++ [toolCallPart (name.getD "unknown") tcid v true]) ≤ 1 := fun v =>
    thinkOk_append_of_inactive parts _ h (by simp [partActive, toolCallPart])
  simp only [toolCallUpdate]
  split
  · exact toolCallAppendToActive_thinkOk _ parts _ (by assumption) h
  · split
    · split
      · rename_i v _ _
        have hcongr : activeCount "thinking" (parts.map (toolCallDeactivateWith v)) =
            activeCount "thinking" parts := by
          apply activeCount_map_congr
          intro p _
          unfold toolCallDeactivateWith
          by_cases hc : p.type = "tool_call" ∧ p.isActive = some true
          · rw [if_pos hc]
            simp [partActive, hc.1]
          · rw [if_neg hc]
        rw [hcongr]
        exact h
      · exact hpushOk _
    · exact hpushOk _

theorem toolCallChunkUpdate_thinkOk (c : Option String) (parts : List MessagePart)
    (h : activeCount "thinking" parts ≤ 1) :
    activeCount "thinking" (toolCallChunkUpdate c parts) ≤ 1 := by
  unfold toolCallChunkUpdate
  cases hlast : parts.getLast? with
  | none => exact h
  | some lp =>
    by_cases hc : lp.type = "tool_call" ∧ lp.isActive = some true
    · show activeCount "thinking"
        (if lp.type = "tool_call" ∧ lp.isActive = some true then
          parts.dropLast ++ [{ lp with arguments := some (.str
            ((match lp.arguments with | some (.str s) => s | _ => "") ++ c.getD "")) }]
         else parts) ≤ 1
      rw [if_pos hc]
      exact thinkOk_replace_last parts lp _ hlast rfl h
    · show activeCount "thinking"
        (if lp.type = "tool_call" ∧ lp.isActive = some true then
          parts.dropLast ++ [{ lp with arguments := some (.str
            ((match lp.arguments with | some (.str s) => s | _ => "") ++ c.getD "")) }]
         else parts) ≤ 1
      rw [if_neg hc]
      exact h

theorem toolCallCompleteUpdate_think_zero (parse : String → Option JsonValue)
    (parts : List MessagePart) :
    activeCount "thinking" (toolCallCompleteUpdate parse parts) = 0 := by
  rw [toolCallCompleteUpdate_eq_map]
  apply activeCount_map_zero
  intro p _
  simp [partActive, specCompletePart_isActive]

theorem completeWithBackendGo_think_zero (btcs : List BackendToolCall) :
    ∀ (parts : List MessagePart) (k : Nat),
      activeCount "thinking" (completeWithBackendGo btcs parts k) = 0 := by
  intro parts
  induction parts with
  | nil => intro k; rfl
  | cons p rest ih =>
    intro k
    unfold completeWithBackendGo
    split
    · split
      · rw [activeCount_cons, ih]
        simp [partActive]
      · rw [activeCount_cons, ih]
        simp [partActive]
    · rw [activeCount_cons, ih]
      simp [partActive]

theorem completeBestEffort_think_zero (parse : String → Option JsonValue)
    (parts : List MessagePart) :
    activeCount "thinking" (completeBestEffort parse parts) = 0 := by
  unfold completeBestEffort
  apply activeCount_map_zero
  intro p _
  rcases p with ⟨ty, co, tn, tci, args, act⟩
  rcases args with _ | v
  · simp [partActive]
  · rcases v with _ | b | n | s | a | o
    · simp [partActive]
    · simp [partActive]
    · simp [partActive]
    · by_cases hty : ty = "tool_call"
      · rcases hp : parse s with _ | parsed <;> simp [partActive, hty, hp]
      · simp [partActive, hty]
    · simp [partActive]
    · simp [partActive]

theorem completeParts_think_zero (parse : String → Option JsonValue)
    (tcs : Option (List BackendToolCall)) (parts : List MessagePart) :
    activeCount "thinking" (completeParts parse tcs parts) = 0 := by
  unfold completeParts
  split
  · split
    · exact completeWithBackendGo_think_zero _ parts 0
    · exact completeBestEffort_think_zero parse parts
  · exact completeBestEffort_think_zero parse parts

theorem completePartsWithContent_thinkOk (parse : String → Option JsonValue)
    (tcs : Option (List BackendToolCall)) (content : Option String)
    (parts : List MessagePart) :
    activeCount "thinking"
      (match content with
       | some c => if c ≠ "" then completeParts parse tcs parts ++ [textPart c]
                   else completeParts parse tcs parts
       | none => completeParts parse tcs parts) ≤ 1 := by
  cases content with
  | none =>
    show activeCount "thinking" (completeParts parse tcs parts) ≤ 1
    rw [completeParts_think_zero]
    exact Nat.zero_le 1
  | some c =>
    show activeCount "thinking"
      (if c ≠ "" then completeParts parse tcs parts ++ [textPart c]
       else completeParts parse tcs parts) ≤ 1
    by_cases hc : c ≠ ""
    · rw [if_pos hc, activeCount_append, completeParts_think_zero, activeCount_singleton]
      simp [partActive, textPart]
    · rw [if_neg hc, completeParts_think_zero]
      exact Nat.zero_le 1

theorem thinkInv_updateStreamingMessage (st : ChatState)
    (fn : List MessagePart → List MessagePart) (cnp : Option MessagePart)
    (hfn : ∀ parts, activeCount "thinking" parts ≤ 1 →
      activeCount "thinking" (fn parts) ≤ 1)
    (hst : ThinkInv st) : ThinkInv (updateStreamingMessage st fn cnp) := by
  have hcreate : ThinkInv (createStreamingMessage st cnp) := by
    intro m hm
    rcases List.mem_append.mp hm with hm | hm
    · exact hst m hm
    · obtain rfl := List.mem_singleton.mp hm
      cases cnp with
      | some p => exact activeCount_singleton_le _ p
      | none => exact Nat.zero_le 1
  unfold updateStreamingMessage
  split
  · split
    · rename_i msgs hupd
      intro m hm
      rcases updateFirstById_mem _ _ st.messages msgs hupd m hm with hmem | ⟨y, hy, rfl⟩
      · exact hst m hmem
      · exact hfn (y.parts.getD []) (hst y hy)
    · exact hcreate
  · exact hcreate

theorem thinkInv_handleComplete (parse : String → Option JsonValue) (st : ChatState)
    (content : Option String) (tcs : Option (List BackendToolCall))
    (hst : ThinkInv st) : ThinkInv (handleComplete parse st content tcs) := by
  have hns : ThinkInv (completeNoStreaming st content) := by
    unfold completeNoStreaming
    split
    · split
      · intro m hm
        rcases List.mem_append.mp hm with hm | hm
        · exact hst m hm
        · obtain rfl := List.mem_singleton.mp hm
          exact activeCount_singleton_le _ _
      · exact fun m hm => hst m hm
    · exact fun m hm => hst m hm
  unfold handleComplete
  split
  · split
    · rename_i msgs hupd
      intro m hm
      rcases updateFirstById_mem _ _ st.messages msgs hupd m hm with hmem | ⟨y, hy, rfl⟩
      · exact hst m hmem
      · exact completePartsWithContent_thinkOk parse tcs content (y.parts.getD [])
    · exact hns
  · exact hns

theorem thinkInv_handleMessage (parse : String → Option JsonValue) (st : ChatState)
    (ev : WsEvent) (hst : ThinkInv st) : ThinkInv (handleMessage parse st ev) := by
  cases ev with
  | status cu tu => exact fun m hm => hst m hm
  | chunk c => exact thinkInv_updateStreamingMessage st _ _ (chunkUpdate_thinkOk c) hst
  | think c => exact thinkInv_updateStreamingMessage st _ _ (thinkUpdate_thinkOk c) hst
  | tool_call name tcid args raw =>
    exact thinkInv_updateStreamingMessage st _ _ (toolCallUpdate_thinkOk name tcid args raw) hst
  | tool_call_chunk c =>
    exact thinkInv_updateStreamingMessage st _ _ (toolCallChunkUpdate_thinkOk c) hst
  | tool_call_complete =>
    refine thinkInv_updateStreamingMessage st _ _ (fun parts _ => ?_) hst
    rw [toolCallCompleteUpdate_think_zero]
    exact Nat.zero_le 1
  | tool_result tcid out =>
    intro m hm
    rcases List.mem_append.mp hm with hm | hm
    · rcases List.mem_append.mp hm with hm | hm
      · exact hst m (List.take_subset _ _ hm)
      · obtain rfl := List.mem_singleton.mp hm
        exact Nat.zero_le 1
    · exact hst m (List.drop_subset _ _ hm)
  | complete content tcs => exact thinkInv_handleComplete parse st content tcs hst
  | error msg =>
    intro m hm
    rcases List.mem_append.mp hm with hm | hm
    · exact hst m hm
    · obtain rfl := List.mem_singleton.mp hm
      exact Nat.zero_le 1
  | approval_result b =>
    intro m hm
    rcases List.mem_append.mp hm with hm | hm
    · exact hst m hm
    · obtain rfl := List.mem_singleton.mp hm
      exact Nat.zero_le 1

theorem thinkInv_runEvents (parse : String → Option JsonValue) :
    ∀ (evs : List WsEvent) (st : ChatState), ThinkInv st →
      ThinkInv (runEvents parse st evs) := by
  intro evs
  induction evs with
  | nil => intro st h; exact h
  | cons e evs ih => intro st h; exact ih _ (thinkInv_handleMessage parse st e h)

/-- C2 counterexample: from the empty transcript, a `tool_call` frame
carrying structured object arguments (creating an *active* ToolCall part
with non-string arguments) followed by a streaming `tool_call` frame
leaves one assistant message whose parts contain TWO ToolCall parts both
marked `isActive: true` — the push branch does not deactivate prior
active ToolCall parts. -/
theorem claim_C2_cex :
    (runEvents jsonParse initialState c2CexEvents).messages.map
      (fun m => (m.role, activeCount "tool_call" (m.parts.getD []))) =
      [(.assistant, 2)] := rfl

/-- C2 (amended): the Thinking half of the single-active invariant holds
at every reachable state — starting from any state in which each
message has at most one active Thinking part (the initial and replayed
states trivially qualify), no event sequence ever produces a message with
two active Thinking parts; activating a new Thinking part deactivates all
prior ones.  The ToolCall half of the original claim is false (see the
counterexample): a newly pushed active ToolCall part does not deactivate
a prior active ToolCall whose arguments are no longer a string. -/
theorem claim_C2 (parse : String → Option JsonValue) (st : ChatState)
    (evs : List WsEvent) (h : ThinkInv st) :
    ThinkInv (runEvents parse st evs) ∧
    (∀ parts : List MessagePart,
      activeCount "thinking" (deactivateThinking parts ++ [thinkingPart "" true]) = 1) := by
  refine ⟨thinkInv_runEvents parse evs st h, fun parts => ?_⟩
  rw [activeCount_append, deactivateThinking_zero, activeCount_singleton]
  simp [partActive, thinkingPart]

/-- C2 witness: from the initial state (vacuously satisfying the bound),
a mixed event run keeps every message at ≤ 1 active Thinking part. -/
theorem claim_C2_witness :
    ThinkInv (runEvents jsonParse initialState
      [.think "a", .tool_call (some "Shell") (some "Shell:0") none (some "x"),
       .think "b", .chunk "t"]) ∧
    (∀ parts : List MessagePart,
      activeCount "thinking" (deactivateThinking parts ++ [thinkingPart "" true]) = 1) :=
  claim_C2 jsonParse initialState
    [.think "a", .tool_call (some "Shell") (some "Shell:0") none (some "x"),
     .think "b", .chunk "t"]
    (fun m hm => absurd hm (List.not_mem_nil m))

theorem historyAssistantParts_eq_spec (m : ApiMessage) :
    historyAssistantParts m = specAssistantParts m := by
  unfold historyAssistantParts specAssistantParts
  have h1 : (match m.thinking with
      | some t => if t ≠ "" then [({ type := "thinking", content := t } : MessagePart)] else []
      | none => []) =
      (match m.thinking with
      | some t => if t = "" then [] else [({ type := "thinking", content := t } : MessagePart)]
      | none => []) := by
    cases m.thinking with
    | none => rfl
    | some t => by_cases ht : t = "" <;> simp [ht]
  have h2 : (match m.content with
      | some c => if jsTrim c ≠ "" then [({ type := "text", content := c } : MessagePart)] else []
      | none => []) =
      (match m.content with
      | some c => if jsTrim c = "" then [] else [({ type := "text", content := c } : MessagePart)]
      | none => []) := by
    cases m.content with
    | none => rfl
    | some c => by_cases hc : jsTrim c = "" <;> simp [hc]
  have h3 : (match m.tool_calls with
      | some tcs =>
        if tcs.length > 0 then
          tcs.map (fun tc =>
            ({ type := "tool_call", tool_name := tc.tool_name,
               tool_call_id := tc.tool_call_id, arguments := tc.arguments } : MessagePart))
        else []
      | none => []) =
      (m.tool_calls.getD []).map (fun tc =>
        ({ type := "tool_call", tool_name := tc.tool_name,
           tool_call_id := tc.tool_call_id, arguments := tc.arguments } : MessagePart)) := by
    cases m.tool_calls with
    | none => rfl
    | some tcs => cases tcs with
      | nil => rfl
      | cons tc rest => simp
  rw [h1, h2, h3]

theorem buildHistoryGo_eq (msgs : List ApiMessage) :
    ∀ (idx : Nat) (pending : Option Message) (out : List Message),
      buildHistoryGo msgs idx pending out =
        out ++ pending.toList ++ specReplay msgs idx := by
  induction msgs with
  | nil => intro idx pending out; simp [buildHistoryGo, specReplay]
  | cons m rest ih =>
    intro idx pending out
    by_cases hu : m.type = "user"
    · simp only [buildHistoryGo, specReplay, specConvertMessage, if_pos hu, ih]
      simp [List.append_assoc]
    · by_cases ha : m.type = "assistant"
      · simp only [buildHistoryGo, specReplay, specConvertMessage, if_neg hu, if_pos ha, ih,
          historyAssistantParts_eq_spec]
        simp [List.append_assoc]
      · by_cases hr : m.type = "tool_result"
        · simp only [buildHistoryGo, specReplay, specConvertMessage, if_neg hu, if_neg ha,
            if_pos hr, ih]
          simp [List.append_assoc]
        · simp only [buildHistoryGo, specReplay, specConvertMessage, if_neg hu, if_neg ha,
            if_neg hr, ih]
          simp

theorem specAssistantParts_no_active (m : ApiMessage) :
    (specAssistantParts m).all (fun p => p.isActive = none) = true := by
  unfold specAssistantParts
  simp only [List.all_append, Bool.and_eq_true]
  refine ⟨⟨?_, ?_⟩, ?_⟩
  · cases m.thinking with
    | none => rfl
    | some t => by_cases ht : t = "" <;> simp [ht]
  · cases m.content with
    | none => rfl
    | some c => by_cases hc : jsTrim c = "" <;> simp [hc]
  · simp [List.all_map, Function.comp]

theorem specReplay_no_active : ∀ (msgs : List ApiMessage) (idx : Nat),
    (specReplay msgs idx).all
      (fun m => (m.parts.getD []).all (fun p => p.isActive = none)) = true := by
  intro msgs
  induction msgs with
  | nil => intro idx; rfl
  | cons m rest ih =>
    intro idx
    unfold specReplay
    rw [List.all_append, Bool.and_eq_true]
    refine ⟨?_, ih (idx + 1)⟩
    unfold specConvertMessage
    by_cases hu : m.type = "user"
    · simp [hu]
    · by_cases ha : m.type = "assistant"
      · simp [hu, ha, specAssistantParts_no_active m]
      · by_cases hr : m.type = "tool_result"
        · simp [hu, ha, hr]
        · simp [hu, ha, hr]

/-- C6: the history replayer emits exactly one turn per recognized
persisted message, in original sequence order — a `user` turn per user
message, an assistant turn whose parts are `thinking` (if non-empty),
then `text` (if non-empty after trimming), then one `tool_call` part per
recorded call in recorded order, and a standalone `tool_result` turn per
tool_result message — as captured by the spec-side `specReplay`; no
replayed part carries an active flag; and on the spec's replay example
the part ordering agrees with live streaming of the equivalent events. -/
theorem claim_C6 (msgs : List ApiMessage) :
    buildHistoryMessages msgs = specReplay msgs 0 ∧
    (buildHistoryMessages msgs).all
      (fun m => (m.parts.getD []).all (fun p => p.isActive = none)) = true ∧
    ((buildHistoryMessages c6History).map (fun m => (m.role, partTypes m)) =
      [(.user, []), (.assistant, ["thinking", "text", "tool_call"]), (.tool_result, [])] ∧
     (runEvents jsonParse initialState c6LiveEvents).messages.map partTypes =
      [["thinking", "text", "tool_call"]]) := by
  have heq : buildHistoryMessages msgs = specReplay msgs 0 := by
    unfold buildHistoryMessages
    rw [buildHistoryGo_eq]
    rfl
  refine ⟨heq, ?_, by rfl, by rfl⟩
  rw [heq]
  exact specReplay_no_active msgs 0

end OpenLegion
